import Mathlib

/-!
Shallow embedding of `src/plugins/validation/semantic-validators/validators/operations-ibm.js`.

JavaScript values appearing in a parsed OpenAPI document are modelled by the
inductive type `JSON`; the JavaScript `undefined` is modelled as `none` in
`Option JSON`.  Operations that can raise a `TypeError` at runtime (property
access on `null`/`undefined`, calling a missing method, pushing onto a missing
severity bucket) are modelled in the `Except Unit` monad, `Except.error ()`
standing for a thrown exception.

The lodash helpers the module uses (`at`, `map`, `each`, `pick`, `includes`)
are modelled to match lodash 4.x semantics on the inputs this module can feed
them, including `at`'s path-string parsing (`stringToPath`) which `resolveRef`
relies on.
-/

inductive JSON where
  | null
  | bool (b : Bool)
  | num (n : Int)
  | str (s : String)
  | arr (elems : List JSON)
  | obj (fields : List (String × JSON))
deriving Repr

/-- JavaScript truthiness of a value (`none` = `undefined`). -/
def truthy : Option JSON → Bool
  | none => false
  | some JSON.null => false
  | some (JSON.bool b) => b
  | some (JSON.num n) => decide (n ≠ 0)
  | some (JSON.str s) => decide (s ≠ "")
  | some (JSON.arr _) => true
  | some (JSON.obj _) => true

/-- First-match association lookup, as JavaScript object property access
(parsed JSON objects have unique keys). -/
def lookupField : List (String × JSON) → String → Option JSON
  | [], _ => none
  | (k, v) :: rest, key => if k == key then some v else lookupField rest key

/-- String to char-list based natural number parse (digits only). -/
def parseNatAux : List Char → Nat → Option Nat
  | [], acc => some acc
  | c :: rest, acc =>
    if c.isDigit then parseNatAux rest (acc * 10 + (c.toNat - 48)) else none

/-- Decimal digits of a natural number; any `fuel > n` is exact. -/
def natDigitsAux : Nat → Nat → List Char
  | 0, _ => []
  | fuel + 1, n =>
    if n < 10 then [Char.ofNat (48 + n)]
    else natDigitsAux fuel (n / 10) ++ [Char.ofNat (48 + n % 10)]

/-- JavaScript `String(n)` for a non-negative integer index. -/
def natToString (n : Nat) : String := ⟨natDigitsAux (n + 1) n⟩

/-- A string that is the canonical decimal representation of an array index. -/
def canonIndex (s : String) : Option Nat :=
  match s.data with
  | [] => none
  | cs =>
    match parseNatAux cs 0 with
    | some n => if natToString n == s then some n else none
    | none => none

mutual

/-- JavaScript `String(v)` on a JSON value. -/
def jsToString : JSON → String
  | JSON.null => "null"
  | JSON.bool b => cond b "true" "false"
  | JSON.num n => toString n
  | JSON.str s => s
  | JSON.arr xs => jsJoin xs ","
  | JSON.obj _ => "[object Object]"

/-- JavaScript `Array.prototype.join(sep)`: `null` elements become empty
strings, other elements are stringified. -/
def jsJoin : List JSON → String → String
  | [], _ => ""
  | [JSON.null], _ => ""
  | [x], _ => jsToString x
  | JSON.null :: y :: ys, sep => sep ++ jsJoin (y :: ys) sep
  | x :: y :: ys, sep => jsToString x ++ sep ++ jsJoin (y :: ys) sep

end

/-- JavaScript whitespace stripped by `String.prototype.trim` (ASCII part). -/
def isJsWhitespace (c : Char) : Bool :=
  c == ' ' || c == '\t' || c == '\n' || c == '\x0d' || c == '\x0b' || c == '\x0c'

def trimChars (l : List Char) : List Char :=
  ((l.dropWhile isJsWhitespace).reverse.dropWhile isJsWhitespace).reverse

def jsTrim (s : String) : String := ⟨trimChars s.data⟩

def lowerStr (s : String) : String := ⟨s.data.map Char.toLower⟩

/-- `s.slice(0, 2) === "x-"`. -/
def startsXDash (s : String) : Bool :=
  match s.data with
  | 'x' :: '-' :: _ => true
  | _ => false

/-- `s.startsWith("#/")`. -/
def startsHashSlash (s : String) : Bool :=
  match s.data with
  | '#' :: '/' :: _ => true
  | _ => false

/-- Property access on a value already known not to be `null`/`undefined`:
total, returns `undefined` when the property is missing.  Arrays expose
`length` and canonical indices; strings expose `length` and their characters;
other primitives have no own properties. -/
def jsPropNN : JSON → String → Option JSON
  | JSON.obj fs, k => lookupField fs k
  | JSON.arr xs, k =>
    if k == "length" then some (JSON.num xs.length)
    else (canonIndex k).bind fun i => xs.get? i
  | JSON.str s, k =>
    if k == "length" then some (JSON.num s.data.length)
    else (canonIndex k).bind fun i => (s.data.get? i).map fun c => JSON.str ⟨[c]⟩
  | _, _ => none

/-- JavaScript property access `v[k]`: throws a `TypeError` when `v` is
`null` or `undefined`. -/
def jsGet : Option JSON → String → Except Unit (Option JSON)
  | none, _ => Except.error ()
  | some JSON.null, _ => Except.error ()
  | some v, k => Except.ok (jsPropNN v k)

/-- The value of `v.length` when it is a number (array length, string length,
or a numeric `length` field of an object). -/
def jsLen : JSON → Option Int
  | JSON.arr xs => some xs.length
  | JSON.str s => some s.data.length
  | JSON.obj fs =>
    match lookupField fs "length" with
    | some (JSON.num n) => some n
    | _ => none
  | _ => none

/-- `v && v.length > 0` in boolean position (comparison with a non-numeric
`length` is `NaN > 0`, i.e. false). -/
def lenGt0 (v : Option JSON) : Bool :=
  match v with
  | some j => match jsLen j with
    | some n => decide (0 < n)
    | none => false
  | none => false

/-- `v === true`. -/
def isTrueVal : Option JSON → Bool
  | some (JSON.bool true) => true
  | _ => false

/-- `v === "off"` (strict equality against the string literal). -/
def isOff : Option JSON → Bool
  | some (JSON.str s) => s == "off"
  | _ => false

/-- `v === lit` for a string literal `lit`. -/
def isStrVal (v : Option JSON) (lit : String) : Bool :=
  match v with
  | some (JSON.str s) => s == lit
  | _ => false

/-! ### lodash `at` path machinery

`resolveRef` builds the path string `["seg1"].["seg2"]...` and hands it to
lodash `at`, which parses it back into keys with `stringToPath` (the
`rePropName` regular expression) unless `isKey` classifies the whole string as
a single key.  The scanners below mirror the regular expressions of lodash 4.x
character by character. -/

/-- `reEscapeChar` replacement `\\(\\)?` → `$1` applied to a quoted segment. -/
def unescapeChars : List Char → List Char
  | [] => []
  | c :: rest =>
    if c = '\\' then
      match rest with
      | d :: rest2 => if d = '\\' then '\\' :: unescapeChars rest2 else d :: unescapeChars rest2
      | [] => []
    else c :: unescapeChars rest

/-- Lazy scan of a quoted bracket segment: consumes content units
(`(?!q)[^\\]` or `\\.`) until the first unescaped closing quote `q`; returns
the raw content and the remainder after the quote. -/
def scanQ (q : Char) : List Char → Option (List Char × List Char)
  | [] => none
  | [c] =>
    if c = '\\' then none
    else if c = q then some ([], [])
    else none
  | c :: d :: rest2 =>
    if c = '\\' then (scanQ q rest2).map fun p => (c :: d :: p.1, p.2)
    else if c = q then some ([], d :: rest2)
    else (scanQ q (d :: rest2)).map fun p => (c :: p.1, p.2)

def isBracketChar (c : Char) : Bool := c == '[' || c == ']'

/-- Unquoted bracket segment of `rePropName`: `([^"'][^[\]]*)` followed by
`]`; returns the content and the remainder after the `]`. -/
def scanB1 : List Char → Option (List Char × List Char)
  | [] => none
  | c :: rest =>
    if c == '"' || c == '\'' then none
    else
      match rest.dropWhile (fun d => !isBracketChar d) with
      | ']' :: r => some (c :: rest.takeWhile (fun d => !isBracketChar d), r)
      | _ => none

/-- Tail of the empty-match lookahead `(?=(?:\.|\[\])(?:\.|\[\]|$))`. -/
def emptyMatchTail : List Char → Bool
  | [] => true
  | '.' :: _ => true
  | '[' :: ']' :: _ => true
  | _ => false

/-- The empty-match lookahead alternative of `rePropName`. -/
def emptyMatchAt : List Char → Bool
  | '.' :: t => emptyMatchTail t
  | '[' :: ']' :: t => emptyMatchTail t
  | _ => false

def isPathStop (c : Char) : Bool := c == '.' || c == '[' || c == ']'

/-- Global scan of `rePropName` over the path string: at each position try, in
order, a plain run `[^.[\]]+`, a bracket segment, and the empty-match
lookahead; unmatched characters are skipped.  `fuel` bounds the recursion and
any value `≥ length + 1` is exact. -/
def scanLoop : Nat → List Char → List (List Char)
  | 0, _ => []
  | _, [] => []
  | fuel + 1, c :: rest =>
    if !isPathStop c then
      (c :: rest).takeWhile (fun d => !isPathStop d) ::
        scanLoop fuel ((c :: rest).dropWhile (fun d => !isPathStop d))
    else if c == '[' then
      match rest with
      | q :: rest2 =>
        if q == '"' || q == '\'' then
          match scanQ q rest2 with
          | some (cont, ']' :: r) => unescapeChars cont :: scanLoop fuel r
          | _ => (if emptyMatchAt (c :: rest) then [([] : List Char)] else []) ++ scanLoop fuel rest
        else
          match scanB1 rest with
          | some (cont, r) => cont :: scanLoop fuel r
          | none => (if emptyMatchAt (c :: rest) then [([] : List Char)] else []) ++ scanLoop fuel rest
      | [] => []
    else
      (if emptyMatchAt (c :: rest) then [([] : List Char)] else []) ++ scanLoop fuel rest

/-- lodash `stringToPath`, including the leading-dot empty first key. -/
def stringToPath (s : String) : List String :=
  let base := (scanLoop (s.data.length + 1) s.data).map fun l => (⟨l⟩ : String)
  match s.data with
  | '.' :: _ => "" :: base
  | _ => base

def isWordChar (c : Char) : Bool := c.isAlpha || c.isDigit || c == '_'

/-- `reIsPlainProp = /^\w*$/`. -/
def isPlainProp (s : String) : Bool := s.data.all isWordChar

/-- Body of a `reIsDeepProp` bracket group, tried after a `[`: either
`[^[\]]*` then `]`, or a quoted group then `]`. -/
def deepBracket (l : List Char) : Bool :=
  match l.dropWhile (fun d => !isBracketChar d) with
  | ']' :: _ => true
  | _ =>
    match l with
    | q :: rest =>
      if q == '"' || q == '\'' then
        match scanQ q rest with
        | some (_, ']' :: _) => true
        | _ => false
      else false
    | [] => false

def deepPropAt : List Char → Bool
  | '.' :: _ => true
  | '[' :: rest => deepBracket rest
  | _ => false

/-- `reIsDeepProp` searched anywhere in the string. -/
def deepPropScan : List Char → Bool
  | [] => false
  | c :: rest => deepPropAt (c :: rest) || deepPropScan rest

def isDeepProp (s : String) : Bool := deepPropScan s.data

/-- `key in Object(doc)` for the key strings this module can produce. -/
def jsHasKey (doc : JSON) (k : String) : Bool :=
  match doc with
  | JSON.obj fs => (lookupField fs k).isSome
  | JSON.arr xs => k == "length" || (canonIndex k).elim false fun i => decide (i < xs.length)
  | JSON.str s => k == "length" || (canonIndex k).elim false fun i => decide (i < s.data.length)
  | _ => false

/-- lodash `isKey(value, object)` for a string value. -/
def isKeyStr (s : String) (doc : JSON) : Bool :=
  isPlainProp s || !isDeepProp s || jsHasKey doc s

/-- lodash `castPath`. -/
def castPath (s : String) (doc : JSON) : List String :=
  if isKeyStr s doc then [s] else stringToPath s

/-- lodash `baseGet`: walk the key sequence, stopping with `undefined` as soon
as the current value is `null`/`undefined` with keys remaining. -/
def walkGet : Option JSON → List String → Option JSON
  | v, [] => v
  | some JSON.null, _ :: _ => none
  | some v, k :: ks => walkGet (jsPropNN v k) ks
  | none, _ :: _ => none

/-- lodash `_.at(doc, path)[0]`, i.e. `_.get(doc, path)`. -/
def lodashGet (doc : JSON) (path : String) : Option JSON :=
  walkGet (some doc) (castPath path doc)

/-! ### `resolveRef` -/

/-- JavaScript `String.prototype.split(sep)` for a one-character separator. -/
def splitChar (sep : Char) : List Char → List (List Char)
  | [] => [[]]
  | c :: rest =>
    let r := splitChar sep rest
    if c = sep then [] :: r
    else match r with
      | [] => [[c]]
      | g :: gs => (c :: g) :: gs

/-- The escaping `e => \x7b`["${e}"]`\x7d` applied to one path element. -/
def brack (e : String) : String := "[\"" ++ e ++ "\"]"

/-- `Array.prototype.join(".")` on a list of strings. -/
def joinDot : List String → String
  | [] => ""
  | [s] => s
  | s :: rest => s ++ "." ++ joinDot rest

/-- `obj.$ref.split("/").slice(1)`. -/
def refSegments (r : String) : List String :=
  ((splitChar '/' r.data).map fun l => (⟨l⟩ : String)).drop 1

/-- The path string handed to lodash `at`. -/
def refPathString (r : String) : String :=
  joinDot ((refSegments r).map brack)

/-- `resolveRef(obj, jsSpec)` from the source.  The argument is an arbitrary
JavaScript value: accessing `.$ref` on `null`/`undefined` throws; a truthy
non-string `$ref` throws at `.startsWith`. -/
def resolveRef (obj : Option JSON) (jsSpec : JSON) : Except Unit (Option JSON) := do
  let ref ← jsGet obj "$ref"
  if !truthy ref then
    return obj
  else
    match ref with
    | some (JSON.str r) =>
      if !startsHashSlash r then
        return some (JSON.obj [])
      else
        return lodashGet jsSpec (refPathString r)
    | _ => Except.error ()

/-! ### `validate` -/

structure Finding where
  path : String
  message : String
deriving Repr, DecidableEq

/-- The local `result` object: one ordered bucket per severity. -/
structure Buckets where
  error : List Finding
  warning : List Finding
deriving Repr, DecidableEq

structure VResult where
  errors : List Finding
  warnings : List Finding
deriving Repr, DecidableEq

/-- `result[checkStatus].push(finding)`: the bucket is selected by the
stringified severity value; any value other than `"error"`/`"warning"`
(including `undefined`) selects a missing bucket and `.push` throws. -/
def pushFinding (st : Buckets) (checkStatus : Option JSON) (f : Finding) : Except Unit Buckets :=
  match checkStatus with
  | some v =>
    if jsToString v == "error" then Except.ok ⟨st.error ++ [f], st.warning⟩
    else if jsToString v == "warning" then Except.ok ⟨st.error, st.warning ++ [f]⟩
    else Except.error ()
  | none => Except.error ()

def msgR1 : String := "PUT and POST operations must have a non-empty `consumes` field."
def msgR2 : String := "GET operations should not specify a consumes field."
def msgR3 : String := "Operations must have a non-empty `produces` field."
def msgR4 : String := "Operations must have a non-empty `operationId`."
def msgR5 : String := "Operations must have a non-empty `summary` field."
def msgR6 : String := "Arrays MUST NOT be returned as the top-level structure in a response body."
def msgR7 : String := "Required parameters should appear before optional parameters."

/-- `v && v.length > 0 && !!v.join("").trim()`: only arrays have `join`, so a
truthy non-array value with positive `length` throws a `TypeError`. -/
def hasNonEmptyJoin (v : Option JSON) : Except Unit Bool :=
  if !truthy v then Except.ok false
  else if !lenGt0 v then Except.ok false
  else match v with
    | some (JSON.arr xs) => Except.ok (!(jsTrim (jsJoin xs "") == ""))
    | _ => Except.error ()

/-- Assertation 1: PUT and POST operations must have a non-empty `consumes`. -/
def rule1Step (jsSpec : JSON) (cfg : Option JSON) (pathKey opKey : String) (op : JSON)
    (st : Buckets) : Except Unit Buckets := do
  if lowerStr opKey == "put" || lowerStr opKey == "post" then
    let hasLocalConsumes ← hasNonEmptyJoin (jsPropNN op "consumes")
    let gc ← jsGet (some jsSpec) "consumes"
    if !hasLocalConsumes && !truthy gc then
      let checkStatus ← jsGet cfg "no_consumes_for_put_or_post"
      if !isOff checkStatus then
        pushFinding st checkStatus ⟨"paths." ++ pathKey ++ "." ++ opKey ++ ".consumes", msgR1⟩
      else return st
    else return st
  else return st

/-- Assertation 3: operations other than HEAD must have a non-empty
`produces`. -/
def rule3Step (jsSpec : JSON) (cfg : Option JSON) (pathKey opKey : String) (op : JSON)
    (st : Buckets) : Except Unit Buckets := do
  if !(lowerStr opKey == "head") then
    let hasLocalProduces ← hasNonEmptyJoin (jsPropNN op "produces")
    let gp ← jsGet (some jsSpec) "produces"
    if !hasLocalProduces && !truthy gp then
      let checkStatus ← jsGet cfg "no_produces"
      if !isOff checkStatus then
        pushFinding st checkStatus ⟨"paths." ++ pathKey ++ "." ++ opKey ++ ".produces", msgR3⟩
      else return st
    else return st
  else return st

/-- Assertation 2: GET operations should not specify a `consumes` field. -/
def rule2Step (cfg : Option JSON) (pathKey opKey : String) (op : JSON)
    (st : Buckets) : Except Unit Buckets := do
  if lowerStr opKey == "get" then
    if truthy (jsPropNN op "consumes") then
      let checkStatus ← jsGet cfg "get_op_has_consumes"
      if !isOff checkStatus then
        pushFinding st checkStatus ⟨"paths." ++ pathKey ++ "." ++ opKey ++ ".consumes", msgR2⟩
      else return st
    else return st
  else return st

/-- The entries `each(op.responses, ...)` iterates: object fields in order,
array elements under their stringified indices, nothing otherwise. -/
def respEntries (v : Option JSON) : List (String × JSON) :=
  match v with
  | some (JSON.obj fs) => fs
  | some (JSON.arr xs) => (List.range xs.length).zip xs |>.map fun p => (natToString p.1, p.2)
  | _ => []

def rule6Fold (jsSpec : JSON) (checkStatus : Option JSON) (pathKey opKey : String) :
    List (String × JSON) → Buckets → Except Unit Buckets
  | [], st => Except.ok st
  | (name, response) :: rest, st => do
    let schema ← jsGet (some response) "schema"
    match schema with
    | some sv =>
      if truthy (some sv) then
        let responseSchema ← resolveRef (some sv) jsSpec
        let isArr := truthy responseSchema &&
          (match responseSchema with
           | some rv => isStrVal (jsPropNN rv "type") "array"
           | none => false)
        if isArr then
          let st2 ← pushFinding st checkStatus
            ⟨"paths." ++ pathKey ++ "." ++ opKey ++ ".responses." ++ name ++ ".schema", msgR6⟩
          rule6Fold jsSpec checkStatus pathKey opKey rest st2
        else rule6Fold jsSpec checkStatus pathKey opKey rest st
      else rule6Fold jsSpec checkStatus pathKey opKey rest st
    | none => rule6Fold jsSpec checkStatus pathKey opKey rest st

/-- Assertation 6: arrays must not be the top-level structure of a GET
response body. -/
def rule6Step (jsSpec : JSON) (cfg : Option JSON) (pathKey opKey : String) (op : JSON)
    (st : Buckets) : Except Unit Buckets := do
  if lowerStr opKey == "get" then
    let checkStatus ← jsGet cfg "no_array_responses"
    if !isOff checkStatus then
      rule6Fold jsSpec checkStatus pathKey opKey (respEntries (jsPropNN op "responses")) st
    else return st
  else return st

/-- Shared body of assertations 4 and 5:
`op.f && op.f.length > 0 && !!op.f.toString().trim()`. -/
def requiredStringStep (cfg : Option JSON) (cfgKey pathKey opKey fieldName msg : String)
    (op : JSON) (st : Buckets) : Except Unit Buckets := do
  let fv := jsPropNN op fieldName
  let has := truthy fv && lenGt0 fv &&
    (match fv with
     | some j => !(jsTrim (jsToString j) == "")
     | none => false)
  if !has then
    let checkStatus ← jsGet cfg cfgKey
    if !isOff checkStatus then
      pushFinding st checkStatus ⟨"paths." ++ pathKey ++ "." ++ opKey ++ "." ++ fieldName, msg⟩
    else return st
  else return st

/-- Assertation 4: operations must have a non-empty `operationId`. -/
def rule4Step (cfg : Option JSON) (pathKey opKey : String) (op : JSON) (st : Buckets) :
    Except Unit Buckets :=
  requiredStringStep cfg "no_operation_id" pathKey opKey "operationId" msgR4 op st

/-- Assertation 5: operations must have a non-empty `summary`. -/
def rule5Step (cfg : Option JSON) (pathKey opKey : String) (op : JSON) (st : Buckets) :
    Except Unit Buckets :=
  requiredStringStep cfg "no_summary" pathKey opKey "summary" msgR5 op st

/-- The `for` loop of assertation 7.  `seenOptional` holds exactly when
`firstOptional >= 0` in the source; `fuel` is the remaining iteration count. -/
def rule7Loop (jsSpec : JSON) (checkStatus : Option JSON) (pathKey opKey : String)
    (paramsVal : JSON) : Nat → Nat → Bool → Buckets → Except Unit Buckets
  | 0, _, _, st => Except.ok st
  | fuel + 1, i, seenOptional, st => do
    let param ← resolveRef (jsPropNN paramsVal (natToString i)) jsSpec
    let required ← jsGet param "required"
    if !seenOptional then
      rule7Loop jsSpec checkStatus pathKey opKey paramsVal fuel (i + 1) (!truthy required) st
    else
      if truthy required then
        let st2 ← pushFinding st checkStatus
          ⟨"paths." ++ pathKey ++ "." ++ opKey ++ ".parameters[" ++ natToString i ++ "]", msgR7⟩
        rule7Loop jsSpec checkStatus pathKey opKey paramsVal fuel (i + 1) true st2
      else rule7Loop jsSpec checkStatus pathKey opKey paramsVal fuel (i + 1) true st

/-- `op.parameters.length` as the loop bound. -/
def loopLen (v : Option JSON) : Nat :=
  match v with
  | some j => match jsLen j with
    | some n => n.toNat
    | none => 0
  | none => 0

/-- Assertation 7: required parameters must be listed before optional ones. -/
def rule7Step (jsSpec : JSON) (cfg : Option JSON) (pathKey opKey : String) (op : JSON)
    (st : Buckets) : Except Unit Buckets := do
  let checkStatus ← jsGet cfg "parameter_order"
  if !isOff checkStatus then
    let ps := jsPropNN op "parameters"
    if truthy ps && lenGt0 ps then
      match ps with
      | some pv => rule7Loop jsSpec checkStatus pathKey opKey pv (loopLen ps) 0 false st
      | none => return st
    else return st
  else return st

/-- The body of the `each` over one path's operations: the exclusion check
followed by the seven assertations in source order. -/
def visitOp (jsSpec : JSON) (cfg : Option JSON) (pathKey opKey : String) (op : JSON)
    (st : Buckets) : Except Unit Buckets := do
  let excl ← jsGet (some op) "x-sdk-exclude"
  if isTrueVal excl then return st
  else
    let s1 ← rule1Step jsSpec cfg pathKey opKey op st
    let s2 ← rule3Step jsSpec cfg pathKey opKey op s1
    let s3 ← rule2Step cfg pathKey opKey op s2
    let s4 ← rule6Step jsSpec cfg pathKey opKey op s3
    let s5 ← rule4Step cfg pathKey opKey op s4
    let s6 ← rule5Step cfg pathKey opKey op s5
    rule7Step jsSpec cfg pathKey opKey op s6

def methodKeys : List String := ["get", "head", "post", "put", "patch", "delete", "options"]

/-- `pick(path, methodKeys)`: the picked keys appear in the order of the key
list, not the object's insertion order; non-objects yield nothing. -/
def pickOps (pathVal : JSON) : List (String × JSON) :=
  match pathVal with
  | JSON.obj fs => methodKeys.filterMap fun m => (lookupField fs m).map fun v => (m, v)
  | _ => []

def foldOps (jsSpec : JSON) (cfg : Option JSON) (pathKey : String) :
    List (String × JSON) → Buckets → Except Unit Buckets
  | [], st => Except.ok st
  | (opKey, op) :: rest, st => do
    let st2 ← visitOp jsSpec cfg pathKey opKey op st
    foldOps jsSpec cfg pathKey rest st2

/-- One iteration of the `map` over `jsSpec.paths`. -/
def visitPath (jsSpec : JSON) (cfg : Option JSON) (pathKey : String) (pathVal : JSON)
    (st : Buckets) : Except Unit Buckets :=
  if startsXDash pathKey then Except.ok st
  else foldOps jsSpec cfg pathKey (pickOps pathVal) st

def foldPaths (jsSpec : JSON) (cfg : Option JSON) :
    List (String × JSON) → Buckets → Except Unit Buckets
  | [], st => Except.ok st
  | (pathKey, pathVal) :: rest, st => do
    let st2 ← visitPath jsSpec cfg pathKey pathVal st
    foldPaths jsSpec cfg rest st2

/-- `map(jsSpec.paths, ...)`: object entries are visited with string keys; a
non-empty array or string collection hands the iteratee a numeric key, whose
`.slice` throws; everything else iterates nothing. -/
def iterPaths (jsSpec : JSON) (cfg : Option JSON) (paths : Option JSON) (st : Buckets) :
    Except Unit Buckets :=
  match paths with
  | some (JSON.obj fs) => foldPaths jsSpec cfg fs st
  | some (JSON.arr []) => Except.ok st
  | some (JSON.arr (_ :: _)) => Except.error ()
  | some (JSON.str s) => if s.data.isEmpty then Except.ok st else Except.error ()
  | _ => Except.ok st

/-- `validate({ jsSpec }, config)` from the source. -/
def validate (jsSpec : JSON) (config : JSON) : Except Unit VResult := do
  let cfg ← jsGet (some config) "operations"
  let paths ← jsGet (some jsSpec) "paths"
  let st ← iterPaths jsSpec cfg paths ⟨[], []⟩
  return ⟨st.error, st.warning⟩

/-! ### Specification-side definitions

These definitions follow the wording of the specification (and of the claims
as amended), to be compared with the behaviour of the translated code. -/

/-- Modelled from the spec: "the value stored under exactly those keys" — a
deep lookup following object fields only. -/
def specLookup : JSON → List String → Option JSON
  | v, [] => some v
  | JSON.obj fs, k :: ks =>
    match lookupField fs k with
    | some v2 => specLookup v2 ks
    | none => none
  | _, _ :: _ => none

/-- A pointer segment containing neither a double quote nor a backslash;
such segments survive the bracket-quote escaping round trip. -/
def safeSeg (s : String) : Bool := s.data.all fun c => !(c == '"' || c == '\\')

/-- The finding emitted by the parameter-order rule for index `j`. -/
def r7Finding (pathKey opKey : String) (j : Nat) : Finding :=
  ⟨"paths." ++ pathKey ++ "." ++ opKey ++ ".parameters[" ++ natToString j ++ "]", msgR7⟩

/-- The index of the first entry whose `required` value is falsy. -/
def firstFalsyIdx : List (Option JSON) → Option Nat
  | [] => none
  | r :: rest => if !truthy r then some 0 else (firstFalsyIdx rest).map fun k => k + 1

/-- Entries paired with their indices, starting at `i`. -/
def enumF : Nat → List (Option JSON) → List (Nat × Option JSON)
  | _, [] => []
  | i, r :: rest => (i, r) :: enumF (i + 1) rest

/-- Parameter-order findings as the amended claim words them: `firstOptional`
is the index of the first parameter whose resolved `required` is falsy, and
one finding is emitted for each later parameter whose resolved `required` is
truthy. -/
def specParamFindings (pathKey opKey : String) (reqs : List (Option JSON)) : List Finding :=
  match firstFalsyIdx reqs with
  | none => []
  | some fo =>
    (enumF 0 reqs).filterMap fun p =>
      if fo < p.1 && truthy p.2 then some (r7Finding pathKey opKey p.1) else none

/-- An inline (non-reference) parameter: an object whose `$ref` field is
falsy, which the Reference Resolver returns unchanged. -/
def inlineParam (p : JSON) : Bool :=
  match p with
  | JSON.obj pfs => !truthy (lookupField pfs "$ref")
  | _ => false

/-- Step-indexed reading of the parameter-order loop, used to relate the loop
to `specParamFindings`. -/
def scanF (pathKey opKey : String) : List (Option JSON) → Nat → Bool → List Finding
  | [], _, _ => []
  | r :: rest, i, seen =>
    if seen then
      (if truthy r then [r7Finding pathKey opKey i] else []) ++
        scanF pathKey opKey rest (i + 1) true
    else scanF pathKey opKey rest (i + 1) (!truthy r)

/-- Appending the findings of a sub-computation onto existing buckets. -/
def bAppend (st d : Buckets) : Buckets := ⟨st.error ++ d.error, st.warning ++ d.warning⟩

/-- A bucket transformer that only ever appends findings (all rule steps are
of this shape): its effect on any state is its effect on the empty state,
appended. -/
def Shiftable (f : Buckets → Except Unit Buckets) : Prop :=
  ∀ st, f st = (f ⟨[], []⟩).map fun d => bAppend st d

/-- An operation value that passes the exclusion check without being skipped
(and without throwing). -/
def cleanNonExcluded (op : JSON) : Bool :=
  match jsGet (some op) "x-sdk-exclude" with
  | Except.ok v => !isTrueVal v
  | Except.error _ => false

/-- The document contains at least one visited, non-excluded operation. -/
def hasNonExcludedOp (jsSpec : JSON) : Bool :=
  match jsGet (some jsSpec) "paths" with
  | Except.ok (some (JSON.obj fs)) =>
    fs.any fun pv => !startsXDash pv.1 && (pickOps pv.2).any fun ov => cleanNonExcluded ov.2
  | _ => false

/-- Char-level view of the escaped form `["seg"]` of one path element. -/
def brackChars (l : List Char) : List Char := '[' :: '"' :: (l ++ ['"', ']'])

/-- Char-level view of the whole escaped path `["s1"].["s2"]...`. -/
def pathChars : List (List Char) → List Char
  | [] => []
  | [l] => brackChars l
  | l :: rest => brackChars l ++ '.' :: pathChars rest

/-! ### Concrete documents and configurations used by counterexamples and
witnesses -/

/-- Per-rule severities, every rule set to `"warning"`. -/
def opsAllWarn : JSON := JSON.obj [
  ("no_consumes_for_put_or_post", JSON.str "warning"),
  ("get_op_has_consumes", JSON.str "warning"),
  ("no_produces", JSON.str "warning"),
  ("no_operation_id", JSON.str "warning"),
  ("no_summary", JSON.str "warning"),
  ("no_array_responses", JSON.str "warning"),
  ("parameter_order", JSON.str "warning")]

/-- Severity configuration with every rule set to `"warning"`. -/
def cfgAllWarn : JSON := JSON.obj [("operations", opsAllWarn)]

/-- The same `operations` mapping as `cfgAllWarn`, with an extra top-level
rule-severity key that `validate` should ignore. -/
def cfgAllWarnPlusTopLevel : JSON :=
  JSON.obj [("parameter_order", JSON.str "error"), ("operations", opsAllWarn)]

/-- Severity configuration with only `parameter_order` on (at `"warning"`). -/
def cfgParamOrderWarn : JSON := JSON.obj [("operations", JSON.obj [
  ("no_consumes_for_put_or_post", JSON.str "off"),
  ("get_op_has_consumes", JSON.str "off"),
  ("no_produces", JSON.str "off"),
  ("no_operation_id", JSON.str "off"),
  ("no_summary", JSON.str "off"),
  ("no_array_responses", JSON.str "off"),
  ("parameter_order", JSON.str "warning")])]

/-- A GET operation whose single parameter is an internal reference pointer
that resolves to no location in the document. -/
def docRefParam : JSON := JSON.obj [("paths", JSON.obj [
  ("/a", JSON.obj [("get", JSON.obj [
    ("parameters", JSON.arr [JSON.obj [("$ref", JSON.str "#/parameters/missing")]])])])])]

/-- A GET operation triggering both the consumes-forbidden rule and the
produces-required rule, with a valid `operationId` and `summary`. -/
def docOrder : JSON := JSON.obj [("paths", JSON.obj [
  ("/a", JSON.obj [("get", JSON.obj [
    ("consumes", JSON.arr [JSON.str "application/json"]),
    ("operationId", JSON.str "getA"),
    ("summary", JSON.str "s")])])])]

/-- Parameters `[{required: false}, {required: "yes"}]`: the second `required`
is a truthy non-boolean. -/
def docTruthyReq : JSON := JSON.obj [("paths", JSON.obj [
  ("/a", JSON.obj [("get", JSON.obj [
    ("parameters", JSON.arr [
      JSON.obj [("required", JSON.bool false)],
      JSON.obj [("required", JSON.str "yes")]])])])])]

/-- A GET operation declaring `consumes` (an empty array, hence truthy). -/
def docBadSev : JSON := JSON.obj [("paths", JSON.obj [
  ("/a", JSON.obj [("get", JSON.obj [("consumes", JSON.arr [])])])])]

/-- `get_op_has_consumes` configured to the out-of-range severity
`"banana"`, every other rule off. -/
def cfgBadSev : JSON := JSON.obj [("operations", JSON.obj [
  ("no_consumes_for_put_or_post", JSON.str "off"),
  ("get_op_has_consumes", JSON.str "banana"),
  ("no_produces", JSON.str "off"),
  ("no_operation_id", JSON.str "off"),
  ("no_summary", JSON.str "off"),
  ("no_array_responses", JSON.str "off"),
  ("parameter_order", JSON.str "off")])]

/-- A document with one plain GET operation. -/
def docOneGet : JSON := JSON.obj [("paths", JSON.obj [("/a", JSON.obj [("get", JSON.obj [])])])]

/-- A configuration whose rule severities sit at the top level instead of
under `operations`. -/
def cfgTopLevel : JSON := JSON.obj [("no_operation_id", JSON.str "error")]

/-- A GET operation with `consumes: null` — the key is declared but the value
is falsy. -/
def docGetNullConsumes : JSON := JSON.obj [("paths", JSON.obj [
  ("/a", JSON.obj [("get", JSON.obj [("consumes", JSON.null)])])])]

/-- Severity configuration with only `get_op_has_consumes` on (at
`"warning"`). -/
def cfgGetConsumesWarn : JSON := JSON.obj [("operations", JSON.obj [
  ("no_consumes_for_put_or_post", JSON.str "off"),
  ("get_op_has_consumes", JSON.str "warning"),
  ("no_produces", JSON.str "off"),
  ("no_operation_id", JSON.str "off"),
  ("no_summary", JSON.str "off"),
  ("no_array_responses", JSON.str "off"),
  ("parameter_order", JSON.str "off")])]

/-- A PUT operation with no local `consumes` in a document whose top-level
`consumes` key is present but `null`. -/
def docPutNullGlobalConsumes : JSON := JSON.obj [
  ("consumes", JSON.null),
  ("paths", JSON.obj [("/a", JSON.obj [("put", JSON.obj [
    ("operationId", JSON.str "x"), ("summary", JSON.str "s")])])])]

/-- Severity configuration with only `no_consumes_for_put_or_post` on (at
`"warning"`). -/
def cfgPutConsumesWarn : JSON := JSON.obj [("operations", JSON.obj [
  ("no_consumes_for_put_or_post", JSON.str "warning"),
  ("get_op_has_consumes", JSON.str "off"),
  ("no_produces", JSON.str "off"),
  ("no_operation_id", JSON.str "off"),
  ("no_summary", JSON.str "off"),
  ("no_array_responses", JSON.str "off"),
  ("parameter_order", JSON.str "off")])]

/-- A document whose single top-level key contains a double quote. -/
def docQuoteKey : JSON := JSON.obj [("a\"b", JSON.num 42)]

example : truthy (some (JSON.arr [])) = true := rfl

example : jsTrim "  a b  " = "a b" := rfl

example : stringToPath "[\"definitions\"].[\"Pet\"]" = ["definitions", "Pet"] := rfl

example : stringToPath "[\"a.b\"]" = ["a.b"] := rfl

example : stringToPath "[\"a\"b\"]" = ["\"a\"b\""] := rfl

/-! ## Infrastructure lemmas -/

theorem exceptOkBind {α β : Type} (a : α) (f : α → Except Unit β) :
    (Except.ok a >>= f) = f a := rfl

theorem exceptErrBind {α β : Type} (f : α → Except Unit β) :
    ((Except.error () : Except Unit α) >>= f) = Except.error () := rfl

theorem startsHashSlash_ne_empty (r : String) (h : startsHashSlash r = true) : r ≠ "" := by
  unfold startsHashSlash at h
  intro he
  subst he
  simp at h

theorem truthy_str_of_startsHashSlash (r : String) (h : startsHashSlash r = true) :
    truthy (some (JSON.str r)) = true := by
  simp [truthy, startsHashSlash_ne_empty r h]

/-! ## Infrastructure lemmas (continued) -/

theorem exceptPure {α : Type} (a : α) : (pure a : Except Unit α) = Except.ok a := rfl

theorem jsToStringStr (s : String) : jsToString (JSON.str s) = s := rfl

theorem pushFinding_warning (st : Buckets) (f : Finding) :
    pushFinding st (some (JSON.str "warning")) f =
      Except.ok ⟨st.error, st.warning ++ [f]⟩ := rfl

theorem pushFinding_error_sev (st : Buckets) (f : Finding) :
    pushFinding st (some (JSON.str "error")) f =
      Except.ok ⟨st.error ++ [f], st.warning⟩ := rfl

theorem pushFinding_invalid (st : Buckets) (f : Finding) (s : String)
    (h1 : (s == "error") = false) (h2 : (s == "warning") = false) :
    pushFinding st (some (JSON.str s)) f = Except.error () := by
  simp only [pushFinding, jsToStringStr, h1, h2]
  simp

/-! ## C9: HEAD operations never produce R3 findings -/

/-- C9: for every HEAD operation, the produces-required rule emits no finding
and leaves the buckets untouched, whatever the local or document-level
`produces` and the configuration. -/
theorem headNeverProduces (jsSpec : JSON) (cfg : Option JSON) (pathKey : String) (op : JSON)
    (st : Buckets) : rule3Step jsSpec cfg pathKey "head" op st = Except.ok st := rfl

/-! ## C10: determinism / idempotence -/

/-- C10: `validate` is a pure function of the document and the configuration
(the embedding threads all state explicitly, mirroring the source whose only
state is the call-local `result` object), so calling it twice with the same
unmodified arguments yields identical results, bucket lists included. -/
theorem validateDeterministic (jsSpec config : JSON) :
    validate jsSpec config = validate jsSpec config ∧
    (validate jsSpec config).map VResult.errors = (validate jsSpec config).map VResult.errors ∧
    (validate jsSpec config).map VResult.warnings =
      (validate jsSpec config).map VResult.warnings :=
  ⟨rfl, rfl, rfl⟩

/-! ## C4: out-of-range severity values -/

/-- C4 counterexample: with `get_op_has_consumes` set to `"banana"` (outside
`{error, warning, off}`) and a document whose GET operation declares
`consumes`, the validator crashes (throws) instead of completing or treating
the value as `off`. -/
theorem invalidSeverityCrash_cex : validate docBadSev cfgBadSev = Except.error () := rfl

/-- C4 (amended): an out-of-range severity is not treated as `off` — the rule
still runs, and the first finding routed through it throws when pushed onto
the missing bucket; the traversal survives only while such a rule emits no
finding (shown for the get-consumes rule, whose guard does not even read the
configuration when `consumes` is falsy). -/
theorem invalidSeverityNotOff :
    (∀ (st : Buckets) (f : Finding) (s : String),
      (s == "error") = false → (s == "warning") = false →
      pushFinding st (some (JSON.str s)) f = Except.error ()) ∧
    (∀ (cfg : Option JSON) (pathKey : String) (op : JSON) (st : Buckets),
      truthy (jsPropNN op "consumes") = false →
      rule2Step cfg pathKey "get" op st = Except.ok st) := by
  constructor
  · exact pushFinding_invalid
  · intro cfg pathKey op st h
    simp [rule2Step, h, exceptPure]

theorem invalidSeverityNotOff_witness :
    pushFinding ⟨[], []⟩ (some (JSON.str "banana")) ⟨"p", "m"⟩ = Except.error () ∧
    rule2Step none "/a" "get" (JSON.obj []) ⟨[], []⟩ = Except.ok ⟨[], []⟩ :=
  ⟨invalidSeverityNotOff.1 ⟨[], []⟩ ⟨"p", "m"⟩ "banana" rfl rfl,
   invalidSeverityNotOff.2 none "/a" (JSON.obj []) ⟨[], []⟩ rfl⟩

/-! ## C6: GET `consumes` detection is truthiness-based -/

/-- C6 counterexample: a GET operation declaring `consumes: null` (the key is
present, with a falsy value) yields no R2 finding, although the claim
promises exactly one for any declared value. -/
theorem getNullConsumes_cex :
    validate docGetNullConsumes cfgGetConsumesWarn = Except.ok ⟨[], []⟩ := rfl

/-- C6 (amended): a GET operation produces exactly one consumes finding at
`paths.<pathKey>.get.consumes`, in the configured bucket, iff its local
`consumes` value is truthy (any array — even empty — any non-empty string,
any object); a falsy `consumes` (absent key, `null`, `false`, `0`, `""`)
produces none. -/
theorem getConsumesTruthiness (cfg : Option JSON) (pathKey opKey : String) (op : JSON)
    (st : Buckets) (hop : (lowerStr opKey == "get") = true) :
    (truthy (jsPropNN op "consumes") = true →
      jsGet cfg "get_op_has_consumes" = Except.ok (some (JSON.str "warning")) →
      rule2Step cfg pathKey opKey op st =
        Except.ok ⟨st.error,
          st.warning ++ [⟨"paths." ++ pathKey ++ "." ++ opKey ++ ".consumes", msgR2⟩]⟩) ∧
    (truthy (jsPropNN op "consumes") = false →
      rule2Step cfg pathKey opKey op st = Except.ok st) := by
  constructor
  · intro h hcs
    simp [rule2Step, hop, h, hcs, exceptOkBind, isOff, pushFinding_warning]
  · intro h
    simp [rule2Step, hop, h, exceptPure]

theorem getConsumesTruthiness_witness :
    rule2Step (some (JSON.obj [("get_op_has_consumes", JSON.str "warning")])) "/w" "get"
      (JSON.obj [("consumes", JSON.arr [])]) ⟨[], []⟩ =
      Except.ok ⟨[], [⟨"paths./w.get.consumes", msgR2⟩]⟩ :=
  (getConsumesTruthiness (some (JSON.obj [("get_op_has_consumes", JSON.str "warning")])) "/w"
    "get" (JSON.obj [("consumes", JSON.arr [])]) ⟨[], []⟩ rfl).1 rfl rfl

/-! ## Infrastructure: constructor-level reduction lemmas -/

theorem jsGet_obj (fs : List (String × JSON)) (k : String) :
    jsGet (some (JSON.obj fs)) k = Except.ok (lookupField fs k) := rfl

theorem truthy_obj (fs : List (String × JSON)) : truthy (some (JSON.obj fs)) = true := rfl

theorem truthy_none : truthy none = false := rfl

theorem truthy_arr (xs : List JSON) : truthy (some (JSON.arr xs)) = true := rfl

theorem lenGt0_singleton (p : JSON) : lenGt0 (some (JSON.arr [p])) = true := rfl

theorem loopLen_singleton (p : JSON) : loopLen (some (JSON.arr [p])) = 1 := rfl

theorem jsPropNN_singleton_zero (p : JSON) :
    jsPropNN (JSON.arr [p]) (natToString 0) = some p := rfl

/-- `resolveRef` on a node whose internal pointer resolves to nothing yields
`undefined`. -/
theorem resolveRef_unresolved (jsSpec : JSON) (sfs : List (String × JSON)) (r : String)
    (href : lookupField sfs "$ref" = some (JSON.str r))
    (hsh : startsHashSlash r = true)
    (hlg : lodashGet jsSpec (refPathString r) = none) :
    resolveRef (some (JSON.obj sfs)) jsSpec = Except.ok none := by
  simp only [resolveRef, jsGet_obj, href, exceptOkBind,
    truthy_str_of_startsHashSlash r hsh, hsh, hlg, Bool.not_true, Bool.false_eq_true,
    if_false, exceptPure]

/-! ## C7: PUT/POST consumes-required rule -/

/-- C7 counterexample: a PUT operation with no local `consumes`, in a
document whose top-level `consumes` key is present but `null`, still gets an
R1 finding — the claim predicted none because the document does not "lack" a
document-level `consumes`. -/
theorem putNullGlobalConsumes_cex :
    validate docPutNullGlobalConsumes cfgPutConsumesWarn =
      Except.ok ⟨[], [⟨"paths./a.put.consumes", msgR1⟩]⟩ := rfl

/-- C7 (amended): for a PUT (or POST) operation, exactly one R1 finding is
produced at `paths.<pathKey>.<opKey>.consumes` in the configured bucket iff
the local `consumes` has no truthy non-empty join (absent, falsy, no entries,
or entries joining and trimming to the empty string) and the document-level
`consumes` value is falsy (absent, `null`, `""`, `0`, `false` — an empty
array counts as present); otherwise none. -/
theorem putConsumesCondition (jsSpec : JSON) (cfg : Option JSON) (pathKey opKey : String)
    (op : JSON) (st : Buckets) (b : Bool) (gv : Option JSON)
    (hop : (lowerStr opKey == "put" || lowerStr opKey == "post") = true)
    (hL : hasNonEmptyJoin (jsPropNN op "consumes") = Except.ok b)
    (hG : jsGet (some jsSpec) "consumes" = Except.ok gv)
    (hcs : jsGet cfg "no_consumes_for_put_or_post" = Except.ok (some (JSON.str "warning"))) :
    rule1Step jsSpec cfg pathKey opKey op st =
      Except.ok ⟨st.error, st.warning ++
        (if !b && !truthy gv then
          [⟨"paths." ++ pathKey ++ "." ++ opKey ++ ".consumes", msgR1⟩] else [])⟩ := by
  unfold rule1Step
  rw [if_pos hop, hL, exceptOkBind, hG, exceptOkBind]
  rcases hcond : (!b && !truthy gv) with _ | _
  · simp [exceptPure]
  · rw [if_pos rfl, hcs, exceptOkBind,
      if_pos (show (!isOff (some (JSON.str "warning"))) = true from rfl),
      pushFinding_warning]
    simp

theorem putConsumesCondition_witness :
    rule1Step (JSON.obj [("consumes", JSON.null)])
      (some (JSON.obj [("no_consumes_for_put_or_post", JSON.str "warning")]))
      "/w" "put" (JSON.obj []) ⟨[], []⟩ =
      Except.ok ⟨[], [⟨"paths./w.put.consumes", msgR1⟩]⟩ :=
  putConsumesCondition (JSON.obj [("consumes", JSON.null)])
    (some (JSON.obj [("no_consumes_for_put_or_post", JSON.str "warning")]))
    "/w" "put" (JSON.obj []) ⟨[], []⟩ false (some JSON.null) rfl rfl rfl rfl

theorem jsGet_none (k : String) : jsGet none k = Except.error () := rfl

/-! ## C1: unresolvable internal reference pointers -/

/-- C1 counterexample: an operation whose parameter is an unresolvable
internal reference makes the whole validation throw (the parameter-order rule
dereferences `.required` on the absent resolution) instead of skipping and
returning a findings pair. -/
theorem unresolvableParamRef_cex :
    lodashGet docRefParam (refPathString "#/parameters/missing") = none ∧
    validate docRefParam cfgAllWarn = Except.error () := ⟨rfl, rfl⟩

/-- C1 (amended): an unresolvable internal reference is skipped silently only
for response schemas — the array-response rule emits no finding for that
response and the validator proceeds; for a parameter, the parameter-order
rule (when not `off`) throws on the unresolved result, so the validator fails
instead of returning a findings pair. -/
theorem unresolvableRefBehaviour :
    (∀ (jsSpec : JSON) (checkStatus : Option JSON) (pathKey opKey name r : String)
      (sfs : List (String × JSON)) (st : Buckets),
      lookupField sfs "$ref" = some (JSON.str r) →
      startsHashSlash r = true →
      lodashGet jsSpec (refPathString r) = none →
      rule6Fold jsSpec checkStatus pathKey opKey
        [(name, JSON.obj [("schema", JSON.obj sfs)])] st = Except.ok st) ∧
    (∀ (jsSpec : JSON) (cfg : Option JSON) (pathKey opKey r : String)
      (pfs : List (String × JSON)) (op : JSON) (st : Buckets) (cs : Option JSON),
      jsGet cfg "parameter_order" = Except.ok cs →
      isOff cs = false →
      jsPropNN op "parameters" = some (JSON.arr [JSON.obj pfs]) →
      lookupField pfs "$ref" = some (JSON.str r) →
      startsHashSlash r = true →
      lodashGet jsSpec (refPathString r) = none →
      rule7Step jsSpec cfg pathKey opKey op st = Except.error ()) := by
  constructor
  · intro jsSpec checkStatus pathKey opKey name r sfs st href hsh hlg
    simp [rule6Fold, jsGet_obj,
      show lookupField [("schema", JSON.obj sfs)] "schema" = some (JSON.obj sfs) from rfl,
      exceptOkBind, truthy_obj, resolveRef_unresolved jsSpec sfs r href hsh hlg,
      truthy_none]
  · intro jsSpec cfg pathKey opKey r pfs op st cs hcs hoff hps href hsh hlg
    simp [rule7Step, hcs, exceptOkBind, hoff, hps, truthy_arr, lenGt0_singleton,
      loopLen_singleton, rule7Loop, jsPropNN_singleton_zero,
      resolveRef_unresolved jsSpec pfs r href hsh hlg, jsGet_none, exceptErrBind]

theorem unresolvableRefBehaviour_witness :
    rule6Fold (JSON.obj []) (some (JSON.str "warning")) "/w" "get"
      [("200", JSON.obj [("schema", JSON.obj [("$ref", JSON.str "#/definitions/missing")])])]
      ⟨[], []⟩ = Except.ok ⟨[], []⟩ ∧
    rule7Step (JSON.obj []) (some (JSON.obj [("parameter_order", JSON.str "warning")]))
      "/w" "get"
      (JSON.obj [("parameters", JSON.arr [JSON.obj [("$ref", JSON.str "#/parameters/missing")]])])
      ⟨[], []⟩ = Except.error () :=
  ⟨unresolvableRefBehaviour.1 (JSON.obj []) (some (JSON.str "warning")) "/w" "get" "200"
      "#/definitions/missing" [("$ref", JSON.str "#/definitions/missing")] ⟨[], []⟩ rfl rfl rfl,
   unresolvableRefBehaviour.2 (JSON.obj [])
      (some (JSON.obj [("parameter_order", JSON.str "warning")])) "/w" "get"
      "#/parameters/missing" [("$ref", JSON.str "#/parameters/missing")]
      (JSON.obj [("parameters", JSON.arr [JSON.obj [("$ref", JSON.str "#/parameters/missing")]])])
      ⟨[], []⟩ (some (JSON.str "warning")) rfl rfl rfl rfl rfl rfl⟩

/-! ## C5: severities are read from `config.operations` -/

theorem rule7Step_cfgNone (jsSpec : JSON) (pathKey opKey : String) (op : JSON) (st : Buckets) :
    rule7Step jsSpec none pathKey opKey op st = Except.error () := rfl

/-- A non-excluded operation always makes `validate` throw when the
configuration's `operations` mapping is absent: every severity lookup is a
property access on `undefined`, and the parameter-order rule performs one
unconditionally. -/
theorem visitOp_cfgNone (jsSpec : JSON) (pathKey opKey : String) (op : JSON) (st : Buckets)
    (h : cleanNonExcluded op = true) :
    visitOp jsSpec none pathKey opKey op st = Except.error () := by
  unfold cleanNonExcluded at h
  rcases hex : jsGet (some op) "x-sdk-exclude" with e | v
  · rw [hex] at h
    simp at h
  · rw [hex] at h
    have hx : isTrueVal v = false := by simpa using h
    simp only [visitOp, hex, exceptOkBind]
    rw [if_neg (by simp [hx])]
    rcases h1 : rule1Step jsSpec none pathKey opKey op st with e1 | s1
    · rfl
    rw [exceptOkBind]
    rcases h2 : rule3Step jsSpec none pathKey opKey op s1 with e2 | s2
    · rfl
    rw [exceptOkBind]
    rcases h3 : rule2Step none pathKey opKey op s2 with e3 | s3
    · rfl
    rw [exceptOkBind]
    rcases h4 : rule6Step jsSpec none pathKey opKey op s3 with e4 | s4
    · rfl
    rw [exceptOkBind]
    rcases h5 : rule4Step none pathKey opKey op s4 with e5 | s5
    · rfl
    rw [exceptOkBind]
    rcases h6 : rule5Step none pathKey opKey op s5 with e6 | s6
    · rfl
    rw [exceptOkBind, rule7Step_cfgNone]

theorem foldOps_cfgNone (jsSpec : JSON) (pathKey : String) (ops : List (String × JSON))
    (st : Buckets) (h : (ops.any fun ov => cleanNonExcluded ov.2) = true) :
    foldOps jsSpec none pathKey ops st = Except.error () := by
  induction ops generalizing st with
  | nil => simp at h
  | cons hd tl ih =>
    rcases hd with ⟨opKey, op⟩
    rw [List.any_cons] at h
    rcases Bool.or_eq_true_iff.mp h with hc | hc
    · simp only [foldOps]
      rw [visitOp_cfgNone jsSpec pathKey opKey op st hc]
      rfl
    · rcases hv : visitOp jsSpec none pathKey opKey op st with e | st2
      · simp only [foldOps]
        rw [hv]
        rfl
      · simp only [foldOps]
        rw [hv, exceptOkBind]
        exact ih st2 hc

theorem foldPaths_cfgNone (jsSpec : JSON) (entries : List (String × JSON)) (st : Buckets)
    (h : (entries.any fun pv =>
      !startsXDash pv.1 && (pickOps pv.2).any fun ov => cleanNonExcluded ov.2) = true) :
    foldPaths jsSpec none entries st = Except.error () := by
  induction entries generalizing st with
  | nil => simp at h
  | cons hd tl ih =>
    rcases hd with ⟨pathKey, pathVal⟩
    rw [List.any_cons] at h
    rcases Bool.or_eq_true_iff.mp h with hc | hc
    · rcases Bool.and_eq_true_iff.mp hc with ⟨hx, hops⟩
      have hx2 : startsXDash pathKey = false := by simpa using hx
      simp only [foldPaths, visitPath]
      rw [if_neg (by simp [hx2])]
      rw [foldOps_cfgNone jsSpec pathKey (pickOps pathVal) st hops]
      rfl
    · rcases hv : visitPath jsSpec none pathKey pathVal st with e | st2
      · simp only [foldPaths]
        rw [hv]
        rfl
      · simp only [foldPaths]
        rw [hv, exceptOkBind]
        exact ih st2 hc

/-- C5: the per-rule severities are read from the `operations` field of the
configuration: `validate` depends on the configuration only through
`config.operations` (top-level rule-severity keys are ignored), and when
`operations` is absent, any document with a visited non-excluded operation
makes the severity lookups fail (throw) instead of treating every rule as
off. -/
theorem configOperationsLookup :
    (∀ (jsSpec c1 c2 : JSON), jsGet (some c1) "operations" = jsGet (some c2) "operations" →
      validate jsSpec c1 = validate jsSpec c2) ∧
    (∀ (jsSpec config : JSON), jsGet (some config) "operations" = Except.ok none →
      hasNonExcludedOp jsSpec = true → validate jsSpec config = Except.error ()) := by
  constructor
  · intro jsSpec c1 c2 h
    unfold validate
    rw [h]
  · intro jsSpec config hc ht
    unfold hasNonExcludedOp at ht
    rcases hp : jsGet (some jsSpec) "paths" with e | pv
    · rw [hp] at ht
      simp at ht
    · rw [hp] at ht
      match pv, ht with
      | some (JSON.obj fs), ht =>
        simp only [validate, hc, hp, exceptOkBind]
        simp only [iterPaths]
        rw [foldPaths_cfgNone jsSpec fs ⟨[], []⟩ ht]
        rfl
      | none, ht => simp at ht
      | some JSON.null, ht => simp at ht
      | some (JSON.bool b), ht => simp at ht
      | some (JSON.num n), ht => simp at ht
      | some (JSON.str s), ht => simp at ht
      | some (JSON.arr xs), ht => simp at ht

theorem configOperationsLookup_witness :
    validate docOneGet cfgAllWarn = validate docOneGet cfgAllWarnPlusTopLevel ∧
    validate docOneGet cfgTopLevel = Except.error () :=
  ⟨configOperationsLookup.1 docOneGet cfgAllWarn cfgAllWarnPlusTopLevel rfl,
   configOperationsLookup.2 docOneGet cfgTopLevel rfl rfl⟩

/-! ## C2: rule evaluation and emission order -/

theorem exceptMapOk {α β : Type} (f : α → β) (a : α) :
    (Except.ok a : Except Unit α).map f = Except.ok (f a) := rfl

theorem exceptMapErr {α β : Type} (f : α → β) :
    (Except.error () : Except Unit α).map f = Except.error () := rfl

theorem bAppend_empty (st : Buckets) : bAppend st ⟨[], []⟩ = st := by
  simp [bAppend]

theorem bAppend_assoc (a b c : Buckets) : bAppend (bAppend a b) c = bAppend a (bAppend b c) := by
  simp [bAppend, List.append_assoc]

theorem shiftablePure : Shiftable Except.ok := by
  intro st
  simp [exceptMapOk, bAppend_empty]

theorem shiftableErr : Shiftable fun _ => Except.error () := fun _ => rfl

theorem shiftablePush (cs : Option JSON) (f : Finding) :
    Shiftable fun st => pushFinding st cs f := by
  intro st
  cases cs with
  | none => rfl
  | some v =>
    unfold pushFinding
    by_cases h1 : (jsToString v == "error") = true
    · simp [h1, exceptMapOk, bAppend]
    · by_cases h2 : (jsToString v == "warning") = true
      · simp [h1, h2, exceptMapOk, bAppend]
      · simp [h1, h2, exceptMapErr]

theorem shiftableBindConst {α : Type} (m : Except Unit α) {k : α → Buckets → Except Unit Buckets}
    (hk : ∀ a, Shiftable (k a)) : Shiftable fun st => m >>= fun a => k a st := by
  intro st
  rcases m with e | a
  · rfl
  · exact hk a st

theorem shiftableBind {f g : Buckets → Except Unit Buckets} (hf : Shiftable f)
    (hg : Shiftable g) : Shiftable fun st => f st >>= g := by
  intro st
  show f st >>= g = Except.map (fun d => bAppend st d) (f ⟨[], []⟩ >>= g)
  rw [hf st]
  rcases hfe : f ⟨[], []⟩ with e | d
  · rfl
  · rw [exceptMapOk, exceptOkBind, exceptOkBind, hg (bAppend st d), hg d]
    rcases hge : g ⟨[], []⟩ with e2 | d2
    · rfl
    · rw [exceptMapOk, exceptMapOk, exceptMapOk, bAppend_assoc]

theorem shiftableIte (c : Prop) [Decidable c] {f g : Buckets → Except Unit Buckets}
    (hf : Shiftable f) (hg : Shiftable g) :
    Shiftable fun st => if c then f st else g st := by
  intro st
  by_cases h : c <;> simp [h, hf st, hg st]

theorem shiftableRule1 (jsSpec : JSON) (cfg : Option JSON) (pathKey opKey : String) (op : JSON) :
    Shiftable (rule1Step jsSpec cfg pathKey opKey op) := by
  unfold rule1Step
  refine shiftableIte _ ?_ shiftablePure
  refine shiftableBindConst _ fun b => ?_
  refine shiftableBindConst _ fun gc => ?_
  refine shiftableIte _ ?_ shiftablePure
  refine shiftableBindConst _ fun cs => ?_
  exact shiftableIte _ (shiftablePush cs _) shiftablePure

theorem shiftableRule3 (jsSpec : JSON) (cfg : Option JSON) (pathKey opKey : String) (op : JSON) :
    Shiftable (rule3Step jsSpec cfg pathKey opKey op) := by
  unfold rule3Step
  refine shiftableIte _ ?_ shiftablePure
  refine shiftableBindConst _ fun b => ?_
  refine shiftableBindConst _ fun gp => ?_
  refine shiftableIte _ ?_ shiftablePure
  refine shiftableBindConst _ fun cs => ?_
  exact shiftableIte _ (shiftablePush cs _) shiftablePure

theorem shiftableRule2 (cfg : Option JSON) (pathKey opKey : String) (op : JSON) :
    Shiftable (rule2Step cfg pathKey opKey op) := by
  unfold rule2Step
  refine shiftableIte _ ?_ shiftablePure
  refine shiftableIte _ ?_ shiftablePure
  refine shiftableBindConst _ fun cs => ?_
  exact shiftableIte _ (shiftablePush cs _) shiftablePure

theorem shiftableRule6Fold (jsSpec : JSON) (cs : Option JSON) (pathKey opKey : String)
    (entries : List (String × JSON)) :
    Shiftable fun st => rule6Fold jsSpec cs pathKey opKey entries st := by
  induction entries with
  | nil => exact shiftablePure
  | cons hd tl ih =>
    rcases hd with ⟨name, response⟩
    unfold rule6Fold
    refine shiftableBindConst _ fun schema => ?_
    cases schema with
    | none => exact ih
    | some sv =>
      refine shiftableIte _ ?_ ih
      refine shiftableBindConst _ fun rs => ?_
      exact shiftableIte _ (shiftableBind (shiftablePush cs _) ih) ih

theorem shiftableRule6 (jsSpec : JSON) (cfg : Option JSON) (pathKey opKey : String) (op : JSON) :
    Shiftable (rule6Step jsSpec cfg pathKey opKey op) := by
  unfold rule6Step
  refine shiftableIte _ ?_ shiftablePure
  refine shiftableBindConst _ fun cs => ?_
  exact shiftableIte _ (shiftableRule6Fold jsSpec cs pathKey opKey _) shiftablePure

theorem shiftableRequiredString (cfg : Option JSON) (cfgKey pathKey opKey fieldName msg : String)
    (op : JSON) :
    Shiftable (requiredStringStep cfg cfgKey pathKey opKey fieldName msg op) := by
  unfold requiredStringStep
  refine shiftableIte _ ?_ shiftablePure
  refine shiftableBindConst _ fun cs => ?_
  exact shiftableIte _ (shiftablePush cs _) shiftablePure

theorem shiftableRule4 (cfg : Option JSON) (pathKey opKey : String) (op : JSON) :
    Shiftable (rule4Step cfg pathKey opKey op) :=
  shiftableRequiredString cfg "no_operation_id" pathKey opKey "operationId" msgR4 op

theorem shiftableRule5 (cfg : Option JSON) (pathKey opKey : String) (op : JSON) :
    Shiftable (rule5Step cfg pathKey opKey op) :=
  shiftableRequiredString cfg "no_summary" pathKey opKey "summary" msgR5 op

theorem shiftableRule7Loop (jsSpec : JSON) (cs : Option JSON) (pathKey opKey : String)
    (pv : JSON) : ∀ fuel i seen,
    Shiftable fun st => rule7Loop jsSpec cs pathKey opKey pv fuel i seen st := by
  intro fuel
  induction fuel with
  | zero => intro i seen; exact shiftablePure
  | succ n ih =>
    intro i seen
    unfold rule7Loop
    refine shiftableBindConst _ fun param => ?_
    refine shiftableBindConst _ fun required => ?_
    refine shiftableIte _ (ih _ _) ?_
    exact shiftableIte _ (shiftableBind (shiftablePush cs _) (ih _ _)) (ih _ _)

theorem shiftableRule7 (jsSpec : JSON) (cfg : Option JSON) (pathKey opKey : String) (op : JSON) :
    Shiftable (rule7Step jsSpec cfg pathKey opKey op) := by
  unfold rule7Step
  refine shiftableBindConst _ fun cs => ?_
  refine shiftableIte _ ?_ shiftablePure
  refine shiftableIte _ ?_ shiftablePure
  cases jsPropNN op "parameters" with
  | none => exact shiftablePure
  | some pv => exact shiftableRule7Loop jsSpec cs pathKey opKey pv _ 0 false

theorem exceptMapErrE {α β : Type} (f : α → β) (e : Unit) :
    (Except.error e : Except Unit α).map f = Except.error e := rfl

theorem exceptErrBindE {α β : Type} (e : Unit) (f : α → Except Unit β) :
    ((Except.error e : Except Unit α) >>= f) = Except.error e := rfl

/-- C2 counterexample: a GET operation that violates both the
consumes-forbidden rule (R2) and the produces-required rule (R3) gets its
produces finding BEFORE its consumes finding — the code evaluates R3 before
R2, so the claimed R1..R7 emission order is wrong. -/
theorem ruleOrder_cex :
    validate docOrder cfgAllWarn = Except.ok ⟨[],
      [⟨"paths./a.get.produces", msgR3⟩, ⟨"paths./a.get.consumes", msgR2⟩]⟩ := rfl

/-- C2 (amended): for each visited non-excluded operation the seven rules are
evaluated in the fixed source order R1 (consumes-required), R3
(produces-required), R2 (consumes-forbidden), R6 (no-array-response), R4
(operationId-required), R5 (summary-required), R7 (parameter-ordering), and
the operation's findings appear in each severity bucket as the concatenation
of the rules' findings in that emission order. -/
theorem ruleEmissionOrder (jsSpec : JSON) (cfg : Option JSON) (pathKey opKey : String)
    (op : JSON) (st st' : Buckets) (ex : Option JSON)
    (hex : jsGet (some op) "x-sdk-exclude" = Except.ok ex)
    (hx : isTrueVal ex = false)
    (h : visitOp jsSpec cfg pathKey opKey op st = Except.ok st') :
    ∃ d1 d3 d2 d6 d4 d5 d7 : Buckets,
      rule1Step jsSpec cfg pathKey opKey op ⟨[], []⟩ = Except.ok d1 ∧
      rule3Step jsSpec cfg pathKey opKey op ⟨[], []⟩ = Except.ok d3 ∧
      rule2Step cfg pathKey opKey op ⟨[], []⟩ = Except.ok d2 ∧
      rule6Step jsSpec cfg pathKey opKey op ⟨[], []⟩ = Except.ok d6 ∧
      rule4Step cfg pathKey opKey op ⟨[], []⟩ = Except.ok d4 ∧
      rule5Step cfg pathKey opKey op ⟨[], []⟩ = Except.ok d5 ∧
      rule7Step jsSpec cfg pathKey opKey op ⟨[], []⟩ = Except.ok d7 ∧
      st'.error = st.error ++ d1.error ++ d3.error ++ d2.error ++ d6.error ++
        d4.error ++ d5.error ++ d7.error ∧
      st'.warning = st.warning ++ d1.warning ++ d3.warning ++ d2.warning ++ d6.warning ++
        d4.warning ++ d5.warning ++ d7.warning := by
  unfold visitOp at h
  rw [hex, exceptOkBind] at h
  rw [if_neg (by simp [hx])] at h
  rw [shiftableRule1 jsSpec cfg pathKey opKey op st] at h
  rcases h1 : rule1Step jsSpec cfg pathKey opKey op ⟨[], []⟩ with e1 | d1
  · rw [h1, exceptMapErrE, exceptErrBindE] at h
    exact Except.noConfusion h
  rw [h1, exceptMapOk, exceptOkBind] at h
  rw [shiftableRule3 jsSpec cfg pathKey opKey op (bAppend st d1)] at h
  rcases h3 : rule3Step jsSpec cfg pathKey opKey op ⟨[], []⟩ with e3 | d3
  · rw [h3, exceptMapErrE, exceptErrBindE] at h
    exact Except.noConfusion h
  rw [h3, exceptMapOk, exceptOkBind] at h
  rw [shiftableRule2 cfg pathKey opKey op (bAppend (bAppend st d1) d3)] at h
  rcases h2 : rule2Step cfg pathKey opKey op ⟨[], []⟩ with e2 | d2
  · rw [h2, exceptMapErrE, exceptErrBindE] at h
    exact Except.noConfusion h
  rw [h2, exceptMapOk, exceptOkBind] at h
  rw [shiftableRule6 jsSpec cfg pathKey opKey op (bAppend (bAppend (bAppend st d1) d3) d2)] at h
  rcases h6 : rule6Step jsSpec cfg pathKey opKey op ⟨[], []⟩ with e6 | d6
  · rw [h6, exceptMapErrE, exceptErrBindE] at h
    exact Except.noConfusion h
  rw [h6, exceptMapOk, exceptOkBind] at h
  rw [shiftableRule4 cfg pathKey opKey op
    (bAppend (bAppend (bAppend (bAppend st d1) d3) d2) d6)] at h
  rcases h4 : rule4Step cfg pathKey opKey op ⟨[], []⟩ with e4 | d4
  · rw [h4, exceptMapErrE, exceptErrBindE] at h
    exact Except.noConfusion h
  rw [h4, exceptMapOk, exceptOkBind] at h
  rw [shiftableRule5 cfg pathKey opKey op
    (bAppend (bAppend (bAppend (bAppend (bAppend st d1) d3) d2) d6) d4)] at h
  rcases h5 : rule5Step cfg pathKey opKey op ⟨[], []⟩ with e5 | d5
  · rw [h5, exceptMapErrE, exceptErrBindE] at h
    exact Except.noConfusion h
  rw [h5, exceptMapOk, exceptOkBind] at h
  rw [shiftableRule7 jsSpec cfg pathKey opKey op
    (bAppend (bAppend (bAppend (bAppend (bAppend (bAppend st d1) d3) d2) d6) d4) d5)] at h
  rcases h7 : rule7Step jsSpec cfg pathKey opKey op ⟨[], []⟩ with e7 | d7
  · rw [h7, exceptMapErrE] at h
    exact Except.noConfusion h
  rw [h7, exceptMapOk] at h
  injection h with h'
  refine ⟨d1, d3, d2, d6, d4, d5, d7, rfl, rfl, rfl, rfl, rfl, rfl, rfl, ?_, ?_⟩ <;>
    rw [← h'] <;> simp [bAppend, List.append_assoc]

theorem ruleEmissionOrder_witness :
    ∃ d1 d3 d2 d6 d4 d5 d7 : Buckets,
      rule1Step docOrder (some opsAllWarn) "/a" "get"
        (JSON.obj [("consumes", JSON.arr [JSON.str "application/json"]),
          ("operationId", JSON.str "getA"), ("summary", JSON.str "s")]) ⟨[], []⟩ =
        Except.ok d1 ∧
      rule3Step docOrder (some opsAllWarn) "/a" "get"
        (JSON.obj [("consumes", JSON.arr [JSON.str "application/json"]),
          ("operationId", JSON.str "getA"), ("summary", JSON.str "s")]) ⟨[], []⟩ =
        Except.ok d3 ∧
      rule2Step (some opsAllWarn) "/a" "get"
        (JSON.obj [("consumes", JSON.arr [JSON.str "application/json"]),
          ("operationId", JSON.str "getA"), ("summary", JSON.str "s")]) ⟨[], []⟩ =
        Except.ok d2 ∧
      rule6Step docOrder (some opsAllWarn) "/a" "get"
        (JSON.obj [("consumes", JSON.arr [JSON.str "application/json"]),
          ("operationId", JSON.str "getA"), ("summary", JSON.str "s")]) ⟨[], []⟩ =
        Except.ok d6 ∧
      rule4Step (some opsAllWarn) "/a" "get"
        (JSON.obj [("consumes", JSON.arr [JSON.str "application/json"]),
          ("operationId", JSON.str "getA"), ("summary", JSON.str "s")]) ⟨[], []⟩ =
        Except.ok d4 ∧
      rule5Step (some opsAllWarn) "/a" "get"
        (JSON.obj [("consumes", JSON.arr [JSON.str "application/json"]),
          ("operationId", JSON.str "getA"), ("summary", JSON.str "s")]) ⟨[], []⟩ =
        Except.ok d5 ∧
      rule7Step docOrder (some opsAllWarn) "/a" "get"
        (JSON.obj [("consumes", JSON.arr [JSON.str "application/json"]),
          ("operationId", JSON.str "getA"), ("summary", JSON.str "s")]) ⟨[], []⟩ =
        Except.ok d7 ∧
      (Buckets.mk [] [⟨"paths./a.get.produces", msgR3⟩,
        ⟨"paths./a.get.consumes", msgR2⟩]).error =
        (Buckets.mk [] []).error ++ d1.error ++ d3.error ++ d2.error ++ d6.error ++
          d4.error ++ d5.error ++ d7.error ∧
      (Buckets.mk [] [⟨"paths./a.get.produces", msgR3⟩,
        ⟨"paths./a.get.consumes", msgR2⟩]).warning =
        (Buckets.mk [] []).warning ++ d1.warning ++ d3.warning ++ d2.warning ++ d6.warning ++
          d4.warning ++ d5.warning ++ d7.warning :=
  ruleEmissionOrder docOrder (some opsAllWarn) "/a" "get"
    (JSON.obj [("consumes", JSON.arr [JSON.str "application/json"]),
      ("operationId", JSON.str "getA"), ("summary", JSON.str "s")])
    ⟨[], []⟩ ⟨[], [⟨"paths./a.get.produces", msgR3⟩, ⟨"paths./a.get.consumes", msgR2⟩]⟩
    none rfl rfl rfl

/-! ## C3: parameter-order rule is truthiness-based -/

theorem parseNatAux_append (l1 l2 : List Char) (acc : Nat) :
    parseNatAux (l1 ++ l2) acc =
      match parseNatAux l1 acc with
      | some m => parseNatAux l2 m
      | none => none := by
  induction l1 generalizing acc with
  | nil => simp [parseNatAux]
  | cons c rest ih =>
    simp only [List.cons_append, parseNatAux]
    by_cases hc : c.isDigit
    · simp only [hc, if_true]
      exact ih _
    · simp [hc]

theorem digitChar_isDigit (m : Nat) (hm : m < 10) : (Char.ofNat (48 + m)).isDigit = true := by
  interval_cases m <;> decide

theorem digitChar_toNat (m : Nat) (hm : m < 10) : (Char.ofNat (48 + m)).toNat = 48 + m := by
  interval_cases m <;> decide

theorem natDigitsAux_parse : ∀ (fuel n : Nat), n < fuel →
    parseNatAux (natDigitsAux fuel n) 0 = some n := by
  intro fuel
  induction fuel with
  | zero => intro n h; omega
  | succ f ih =>
    intro n h
    unfold natDigitsAux
    by_cases h10 : n < 10
    · simp only [h10, if_true, parseNatAux, digitChar_isDigit n h10, if_true,
        digitChar_toNat n h10]
      norm_num
    · have hf : n / 10 < f := by omega
      simp only [h10, if_false, parseNatAux_append, ih (n / 10) hf, parseNatAux,
        digitChar_isDigit (n % 10) (by omega), if_true, digitChar_toNat (n % 10) (by omega)]
      have hn : n / 10 * 10 + (48 + n % 10 - 48) = n := by omega
      rw [hn]

theorem natDigitsAux_ne_nil (fuel n : Nat) (h : n < fuel) : natDigitsAux fuel n ≠ [] := by
  cases fuel with
  | zero => omega
  | succ f =>
    unfold natDigitsAux
    by_cases h10 : n < 10 <;> simp [h10]

theorem natToString_parse (n : Nat) : parseNatAux (natToString n).data 0 = some n :=
  natDigitsAux_parse (n + 1) n (by omega)

theorem natToString_neq_length (n : Nat) : (natToString n == "length") = false := by
  rcases hb : (natToString n == "length") with _ | _
  · rfl
  · exfalso
    have heq : natToString n = "length" := eq_of_beq hb
    have h1 := natToString_parse n
    have h2 : parseNatAux "length".data 0 = none := by decide
    rw [heq, h2] at h1
    exact Option.noConfusion h1

theorem canonIndex_natToString (i : Nat) : canonIndex (natToString i) = some i := by
  unfold canonIndex
  rcases hd : (natToString i).data with _ | ⟨c, cs⟩
  · exact absurd hd (natDigitsAux_ne_nil (i + 1) i (by omega))
  · have hp := natToString_parse i
    rw [hd] at hp
    simp [hp]

theorem jsPropNN_arr_index (xs : List JSON) (i : Nat) :
    jsPropNN (JSON.arr xs) (natToString i) = xs.get? i := by
  simp [jsPropNN, natToString_neq_length, canonIndex_natToString]

theorem resolveRef_inline (jsSpec : JSON) (pfs : List (String × JSON))
    (h : truthy (lookupField pfs "$ref") = false) :
    resolveRef (some (JSON.obj pfs)) jsSpec = Except.ok (some (JSON.obj pfs)) := by
  simp [resolveRef, jsGet_obj, exceptOkBind, h, exceptPure]

theorem get?_append_cons (pre : List JSON) (p : JSON) (suf : List JSON) :
    (pre ++ p :: suf).get? pre.length = some p := by
  induction pre with
  | nil => rfl
  | cons a l ih => simpa using ih

theorem jsPropNN_obj (pfs : List (String × JSON)) (k : String) :
    jsPropNN (JSON.obj pfs) k = lookupField pfs k := rfl

/-- One pass of the parameter-order loop over inline parameters, expressed
against the scan function `scanF`. -/
theorem rule7LoopClean (jsSpec : JSON) (pathKey opKey : String) (params : List JSON)
    (hclean : ∀ p ∈ params, inlineParam p = true) :
    ∀ (suf pre : List JSON), params = pre ++ suf →
      ∀ (seen : Bool) (st : Buckets),
      rule7Loop jsSpec (some (JSON.str "warning")) pathKey opKey (JSON.arr params)
        suf.length pre.length seen st =
        Except.ok ⟨st.error, st.warning ++
          scanF pathKey opKey (suf.map fun p => jsPropNN p "required") pre.length seen⟩ := by
  intro suf
  induction suf with
  | nil =>
    intro pre hsplit seen st
    simp [rule7Loop, scanF]
  | cons p rest ih =>
    intro pre hsplit seen st
    have hp : p ∈ params := by
      rw [hsplit]
      simp
    have hobj := hclean p hp
    obtain ⟨pfs, rfl⟩ : ∃ pfs, p = JSON.obj pfs := by
      rcases p with _ | b | nn | s | xs | pfs
      · simp [inlineParam] at hobj
      · simp [inlineParam] at hobj
      · simp [inlineParam] at hobj
      · simp [inlineParam] at hobj
      · simp [inlineParam] at hobj
      · exact ⟨pfs, rfl⟩
    have hpref : truthy (lookupField pfs "$ref") = false := by
      simpa [inlineParam] using hobj
    have hidx : jsPropNN (JSON.arr params) (natToString pre.length) = some (JSON.obj pfs) := by
      rw [jsPropNN_arr_index, hsplit, get?_append_cons]
    have hlen : (pre ++ [JSON.obj pfs]).length = pre.length + 1 := by simp
    have hsplit2 : params = (pre ++ [JSON.obj pfs]) ++ rest := by
      rw [hsplit]
      simp
    simp only [List.length_cons, rule7Loop, hidx, resolveRef_inline jsSpec pfs hpref,
      exceptOkBind, jsGet_obj, List.map_cons, scanF, jsPropNN_obj]
    rcases seen with _ | _
    · have H := ih (pre ++ [JSON.obj pfs]) hsplit2 (!truthy (lookupField pfs "required")) st
      rw [hlen] at H
      simpa using H
    · by_cases hreq : truthy (lookupField pfs "required") = true
      · have H := ih (pre ++ [JSON.obj pfs]) hsplit2 true
          ⟨st.error, st.warning ++
            [⟨"paths." ++ pathKey ++ "." ++ opKey ++ ".parameters[" ++
              natToString pre.length ++ "]", msgR7⟩]⟩
        rw [hlen] at H
        simp only [hreq, Bool.not_true, Bool.false_eq_true, if_false, if_true,
          pushFinding_warning, exceptOkBind, H, r7Finding]
        simp [List.append_assoc]
      · have hreq2 : truthy (lookupField pfs "required") = false := by simpa using hreq
        have H := ih (pre ++ [JSON.obj pfs]) hsplit2 true st
        rw [hlen] at H
        simpa [hreq2] using H

theorem filterMapCongr {α β : Type} {f g : α → Option β} :
    ∀ (l : List α), (∀ x ∈ l, f x = g x) → l.filterMap f = l.filterMap g := by
  intro l
  induction l with
  | nil => intro _; rfl
  | cons a t ih =>
    intro h
    rw [List.filterMap_cons, List.filterMap_cons, h a (by simp),
      ih fun x hx => h x (by simp [hx])]

theorem scanF_true (pathKey opKey : String) : ∀ (reqs : List (Option JSON)) (i : Nat),
    scanF pathKey opKey reqs i true =
      (enumF i reqs).filterMap fun p =>
        if truthy p.2 then some (r7Finding pathKey opKey p.1) else none := by
  intro reqs
  induction reqs with
  | nil => intro i; rfl
  | cons r rest ih =>
    intro i
    by_cases hr : truthy r = true
    · simp [scanF, enumF, List.filterMap_cons, hr, ih (i + 1)]
    · have hr2 : truthy r = false := by simpa using hr
      simp [scanF, enumF, List.filterMap_cons, hr2, ih (i + 1)]

theorem mem_enumF_ge : ∀ (reqs : List (Option JSON)) (i : Nat) (p : Nat × Option JSON),
    p ∈ enumF i reqs → i ≤ p.1 := by
  intro reqs
  induction reqs with
  | nil => intro i p h; simp [enumF] at h
  | cons r rest ih =>
    intro i p h
    cases h with
    | head => exact Nat.le_refl _
    | tail b h2 => exact Nat.le_of_succ_le (ih (i + 1) p h2)

theorem scanF_false (pathKey opKey : String) : ∀ (reqs : List (Option JSON)) (i : Nat),
    scanF pathKey opKey reqs i false =
      match firstFalsyIdx reqs with
      | none => []
      | some k =>
        (enumF i reqs).filterMap fun p =>
          if i + k < p.1 && truthy p.2 then some (r7Finding pathKey opKey p.1) else none := by
  intro reqs
  induction reqs with
  | nil => intro i; rfl
  | cons r rest ih =>
    intro i
    have hstep : scanF pathKey opKey (r :: rest) i false =
        scanF pathKey opKey rest (i + 1) (!truthy r) := rfl
    by_cases hr : truthy r = true
    · have hff : firstFalsyIdx (r :: rest) =
          (firstFalsyIdx rest).map fun k => k + 1 := by
        simp [firstFalsyIdx, hr]
      rw [hstep, hr, Bool.not_true, ih (i + 1)]
      rcases hk : firstFalsyIdx rest with _ | k
      · simp [hff, hk]
      · simp only [hff, hk, Option.map_some']
        rw [show enumF i (r :: rest) = (i, r) :: enumF (i + 1) rest from rfl,
          List.filterMap_cons]
        have hhead : (if (decide (i + (k + 1) < i) && truthy r) = true then
            some (r7Finding pathKey opKey i) else none) = none := by
          simp [show ¬(i + (k + 1) < i) from by omega]
        rw [hhead]
        apply filterMapCongr
        intro x hx
        have harith : i + (k + 1) = (i + 1) + k := by omega
        rw [harith]
    · have hr2 : truthy r = false := by simpa using hr
      have hff : firstFalsyIdx (r :: rest) = some 0 := by simp [firstFalsyIdx, hr2]
      rw [hstep, hr2, Bool.not_false, scanF_true]
      simp only [hff]
      rw [show enumF i (r :: rest) = (i, r) :: enumF (i + 1) rest from rfl,
        List.filterMap_cons]
      have hhead : (if (decide (i + 0 < i) && truthy r) = true then
          some (r7Finding pathKey opKey i) else none) = none := by
        simp [hr2]
      rw [hhead]
      apply filterMapCongr
      intro x hx
      have hxge : i + 1 ≤ x.1 := mem_enumF_ge rest (i + 1) x hx
      have hlt : i < x.1 := by omega
      simp [hlt]

theorem scanF_spec (pathKey opKey : String) (reqs : List (Option JSON)) :
    scanF pathKey opKey reqs 0 false = specParamFindings pathKey opKey reqs := by
  rw [scanF_false]
  unfold specParamFindings
  rcases hk : firstFalsyIdx reqs with _ | k
  · rfl
  · simp

theorem loopLen_arr (xs : List JSON) : loopLen (some (JSON.arr xs)) = xs.length := by
  simp [loopLen, jsLen]

/-- C3 counterexample: with parameters `[{required: false}, {required: "yes"}]`
the second parameter's `required` is the truthy non-boolean `"yes"`, and it IS
reported — the claim says a truthy non-boolean `required` is not reported
(`required === true` strictness). -/
theorem truthyRequiredReported_cex :
    validate docTruthyReq cfgParamOrderWarn =
      Except.ok ⟨[], [⟨"paths./a.get.parameters[1]", msgR7⟩]⟩ := rfl

/-- C3 (amended): for an operation with a non-empty inline parameter list,
`firstOptional` is the index of the first parameter whose resolved `required`
is falsy, and one finding is emitted for each later parameter whose resolved
`required` is truthy (so `required: "yes"` is reported when late and does not
open the optional region when first). -/
theorem paramOrderTruthiness (jsSpec : JSON) (cfg : Option JSON) (pathKey opKey : String)
    (op : JSON) (params : List JSON) (st : Buckets)
    (hps : jsPropNN op "parameters" = some (JSON.arr params))
    (hne : params ≠ [])
    (hclean : ∀ p ∈ params, inlineParam p = true)
    (hcs : jsGet cfg "parameter_order" = Except.ok (some (JSON.str "warning"))) :
    rule7Step jsSpec cfg pathKey opKey op st =
      Except.ok ⟨st.error, st.warning ++
        specParamFindings pathKey opKey (params.map fun p => jsPropNN p "required")⟩ := by
  have hlp : 0 < params.length := List.length_pos.mpr hne
  have hlen0 : lenGt0 (some (JSON.arr params)) = true := by
    simp [lenGt0, jsLen]
    exact_mod_cast hlp
  have hloop := rule7LoopClean jsSpec pathKey opKey params hclean params [] rfl false st
  unfold rule7Step
  rw [hcs, exceptOkBind,
    if_pos (show (!isOff (some (JSON.str "warning"))) = true from rfl), hps,
    if_pos (show (truthy (some (JSON.arr params)) && lenGt0 (some (JSON.arr params))) = true by
      simp [truthy_arr, hlen0]),
    loopLen_arr]
  simp only [List.length_nil] at hloop
  rw [← scanF_spec pathKey opKey]
  exact hloop

theorem paramOrderTruthiness_witness :
    rule7Step (JSON.obj []) (some (JSON.obj [("parameter_order", JSON.str "warning")]))
      "/w" "get"
      (JSON.obj [("parameters", JSON.arr [
        JSON.obj [("required", JSON.bool false)],
        JSON.obj [("required", JSON.str "yes")]])]) ⟨[], []⟩ =
      Except.ok ⟨[],
        specParamFindings "/w" "get"
          ([JSON.obj [("required", JSON.bool false)],
            JSON.obj [("required", JSON.str "yes")]].map fun p => jsPropNN p "required")⟩ :=
  paramOrderTruthiness (JSON.obj []) (some (JSON.obj [("parameter_order", JSON.str "warning")]))
    "/w" "get"
    (JSON.obj [("parameters", JSON.arr [
      JSON.obj [("required", JSON.bool false)],
      JSON.obj [("required", JSON.str "yes")]])])
    [JSON.obj [("required", JSON.bool false)], JSON.obj [("required", JSON.str "yes")]]
    ⟨[], []⟩ rfl (by simp)
    (by
      intro p hp
      rcases List.mem_cons.mp hp with rfl | hp2
      · rfl
      · rcases List.mem_cons.mp hp2 with rfl | h3
        · rfl
        · cases h3)
    rfl

/-! ## C8: pointer escaping and lookup -/

theorem strDataAppend (a b : String) : (a ++ b).data = a.data ++ b.data := by
  cases a
  cases b
  rfl

theorem safeSeg_chars (s : String) (h : safeSeg s = true) :
    ∀ c ∈ s.data, c ≠ '"' ∧ c ≠ '\\' := by
  intro c hc
  unfold safeSeg at h
  rw [List.all_eq_true] at h
  have := h c hc
  constructor
  · intro he
    subst he
    simp at this
  · intro he
    subst he
    simp at this

theorem unescape_id (l : List Char) (h : ∀ c ∈ l, c ≠ '"' ∧ c ≠ '\\') :
    unescapeChars l = l := by
  induction l with
  | nil => rfl
  | cons c rest ih =>
    have hc := (h c (by simp)).2
    unfold unescapeChars
    rw [if_neg hc, ih fun d hd => h d (by simp [hd])]

theorem scanQ_safe (l : List Char) (rest : List Char) (h : ∀ c ∈ l, c ≠ '"' ∧ c ≠ '\\') :
    scanQ '"' (l ++ '"' :: rest) = some (l, rest) := by
  induction l with
  | nil =>
    cases rest <;> simp [scanQ]
  | cons c l2 ih =>
    have hc := h c (by simp)
    rcases hsplit : l2 ++ '"' :: rest with _ | ⟨d, rest2⟩
    · simp at hsplit
    · have : scanQ '"' (c :: l2 ++ '"' :: rest) = scanQ '"' (c :: d :: rest2) := by
        rw [List.cons_append, hsplit]
      rw [this]
      unfold scanQ
      rw [if_neg hc.2, if_neg hc.1, ← hsplit, ih fun x hx => h x (by simp [hx])]
      rfl

theorem brack_data (s : String) : (brack s).data = brackChars s.data := by
  unfold brack brackChars
  rw [strDataAppend, strDataAppend]
  simp

theorem joinDot_brack_data : ∀ (segs : List String), segs ≠ [] →
    (joinDot (segs.map brack)).data = pathChars (segs.map String.data) := by
  intro segs
  induction segs with
  | nil => intro h; exact absurd rfl h
  | cons s rest ih =>
    intro _
    cases rest with
    | nil => simp [joinDot, pathChars, brack_data]
    | cons t rest2 =>
      have hne : t :: rest2 ≠ ([] : List String) := by simp
      simp only [List.map_cons, joinDot, pathChars]
      rw [strDataAppend, strDataAppend, brack_data]
      rw [List.map_cons] at ih
      rw [ih hne]
      simp [pathChars]

theorem pathChars_cons_shape (l : List Char) (rest : List (List Char)) :
    ∃ tail, pathChars (l :: rest) = '[' :: '"' :: (l ++ '"' :: ']' :: tail) := by
  cases rest with
  | nil => exact ⟨[], by simp [pathChars, brackChars]⟩
  | cons m rest2 =>
    refine ⟨'.' :: pathChars (m :: rest2), ?_⟩
    simp [pathChars, brackChars]

theorem isPlainProp_path (s : String) (l : List Char) (rest : List (List Char))
    (hd : s.data = pathChars (l :: rest)) : isPlainProp s = false := by
  obtain ⟨tail, hshape⟩ := pathChars_cons_shape l rest
  unfold isPlainProp
  rw [hd, hshape]
  simp [isWordChar]

theorem deepBracket_quoted (l tail : List Char) (h : ∀ c ∈ l, c ≠ '"' ∧ c ≠ '\\') :
    deepBracket ('"' :: (l ++ '"' :: ']' :: tail)) = true := by
  unfold deepBracket
  split
  · rfl
  · simp [scanQ_safe l (']' :: tail) h]

theorem isDeepProp_path (s : String) (l : List Char) (rest : List (List Char))
    (hd : s.data = pathChars (l :: rest)) (h : ∀ c ∈ l, c ≠ '"' ∧ c ≠ '\\') :
    isDeepProp s = true := by
  obtain ⟨tail, hshape⟩ := pathChars_cons_shape l rest
  unfold isDeepProp
  rw [hd, hshape]
  unfold deepPropScan
  rw [show deepPropAt ('[' :: '"' :: (l ++ '"' :: ']' :: tail)) =
    deepBracket ('"' :: (l ++ '"' :: ']' :: tail)) from rfl]
  rw [deepBracket_quoted l tail h]
  rfl

theorem scanLoop_nil (fuel : Nat) : scanLoop fuel [] = [] := by
  cases fuel <;> rfl

theorem pathChars_cons_cons (l m : List Char) (rest2 : List (List Char)) :
    pathChars (l :: m :: rest2) =
      '[' :: '"' :: (l ++ '"' :: ']' :: '.' :: pathChars (m :: rest2)) := by
  simp [pathChars, brackChars, List.append_assoc]

theorem scanLoop_build : ∀ (segsData : List (List Char)),
    (∀ l ∈ segsData, ∀ c ∈ l, c ≠ '"' ∧ c ≠ '\\') →
    ∀ fuel, (pathChars segsData).length < fuel →
    scanLoop fuel (pathChars segsData) = segsData := by
  intro segsData
  induction segsData with
  | nil =>
    intro _ fuel _
    exact scanLoop_nil fuel
  | cons l rest ih =>
    intro hsafe fuel hfuel
    have hl := hsafe l (by simp)
    cases rest with
    | nil =>
      rcases fuel with _ | f
      · exact absurd hfuel (by omega)
      · show scanLoop (f + 1) ('[' :: '"' :: (l ++ ['"', ']'])) = [l]
        simp only [scanLoop]
        simp [isPathStop, scanQ_safe l [']'] hl, unescape_id l hl, scanLoop_nil]
    | cons m rest2 =>
      have hshape := pathChars_cons_cons l m rest2
      rw [hshape] at hfuel ⊢
      rcases fuel with _ | f
      · exact absurd hfuel (by omega)
      rcases f with _ | g
      · exfalso
        simp at hfuel
      · have hrest : (pathChars (m :: rest2)).length < g := by
          simp at hfuel
          omega
        have hPshape := pathChars_cons_shape m rest2
        obtain ⟨tail2, htail2⟩ := hPshape
        have hih := ih (fun x hx => hsafe x (by simp [hx])) g hrest
        simp only [scanLoop]
        simp only [show isPathStop '[' = true from rfl, Bool.not_true, Bool.false_eq_true,
          if_false, show ('[' == '[' : Bool) = true from rfl, if_true,
          show ('"' == '"' || '"' == '\'' : Bool) = true from rfl,
          scanQ_safe l (']' :: '.' :: pathChars (m :: rest2)) hl]
        simp only [scanLoop]
        simp only [show isPathStop '.' = true from rfl, Bool.not_true, Bool.false_eq_true,
          if_false, show ('.' == '[' : Bool) = false from rfl]
        rw [show emptyMatchAt ('.' :: pathChars (m :: rest2)) = false by
          rw [htail2]
          rfl]
        simp only [Bool.false_eq_true, if_false, List.nil_append]
        rw [unescape_id l hl, hih]

theorem stringToPath_build (s : String) (segs : List String) (hne : segs ≠ [])
    (hdata : s.data = pathChars (segs.map String.data))
    (hsafe : ∀ t ∈ segs, safeSeg t = true) :
    stringToPath s = segs := by
  obtain ⟨l, rest, hsegs⟩ : ∃ l rest, segs.map String.data = l :: rest := by
    cases segs with
    | nil => exact absurd rfl hne
    | cons a b => exact ⟨a.data, b.map String.data, rfl⟩
  obtain ⟨tail, hshape⟩ := pathChars_cons_shape l rest
  have hsafeD : ∀ x ∈ segs.map String.data, ∀ c ∈ x, c ≠ '"' ∧ c ≠ '\\' := by
    intro x hx
    obtain ⟨t, ht, rfl⟩ := List.mem_map.mp hx
    exact safeSeg_chars t (hsafe t ht)
  have hscan := scanLoop_build (segs.map String.data) hsafeD (s.data.length + 1)
    (by rw [hdata]; omega)
  unfold stringToPath
  rw [hdata, hsegs, hshape]
  rw [hdata, hsegs, hshape] at hscan
  rw [hscan]
  show List.map (fun l => (⟨l⟩ : String)) (l :: rest) = segs
  rw [← hsegs, List.map_map]
  rw [show ((fun l => (⟨l⟩ : String)) ∘ String.data) = id from funext fun t => rfl,
    List.map_id]

theorem walkGet_specLookup : ∀ (segs : List String) (doc v : JSON),
    specLookup doc segs = some v → walkGet (some doc) segs = some v := by
  intro segs
  induction segs with
  | nil =>
    intro doc v h
    simp only [specLookup] at h
    injection h with h2
    subst h2
    cases doc <;> rfl
  | cons k ks ih =>
    intro doc v h
    cases doc with
    | obj fs =>
      unfold specLookup at h
      rcases hlk : lookupField fs k with _ | v2
      · rw [hlk] at h
        exact Option.noConfusion h
      · rw [hlk] at h
        show walkGet (jsPropNN (JSON.obj fs) k) ks = some v
        rw [jsPropNN_obj, hlk]
        exact ih v2 v h
    | null => exact Option.noConfusion h
    | bool b => exact Option.noConfusion h
    | num n => exact Option.noConfusion h
    | str s2 => exact Option.noConfusion h
    | arr xs => exact Option.noConfusion h

/-- C8 counterexample: the document has the key `a"b` at its root, and the
pointer `#/a"b` names it through one segment; yet the escaped path
`["a"b"]` misparses (the quote ends the bracket group early), the lookup
returns `undefined`, and the resolver yields `undefined` instead of the
stored value `42`. -/
theorem quoteKeyMisparse_cex :
    specLookup docQuoteKey ["a\"b"] = some (JSON.num 42) ∧
    refSegments "#/a\"b" = ["a\"b"] ∧
    resolveRef (some (JSON.obj [("$ref", JSON.str "#/a\"b")])) docQuoteKey =
      Except.ok none := ⟨rfl, rfl, rfl⟩

/-- C8 (amended): for every key path actually present in the document whose
segments contain neither a double quote nor a backslash — such segments
survive the `["..."]` escaping round trip, dots included — and whose escaped
path string does not collide with a top-level key of the document, an internal
pointer naming it resolves to the value stored under exactly those keys. -/
theorem pointerResolvesSafeKeys (doc : JSON) (nfs : List (String × JSON)) (r : String)
    (segs : List String) (v : JSON)
    (href : lookupField nfs "$ref" = some (JSON.str r))
    (h1 : startsHashSlash r = true)
    (h2 : refSegments r = segs)
    (h3 : segs ≠ [])
    (h4 : ∀ t ∈ segs, safeSeg t = true)
    (h5 : jsHasKey doc (refPathString r) = false)
    (h6 : specLookup doc segs = some v) :
    resolveRef (some (JSON.obj nfs)) doc = Except.ok (some v) := by
  have hpath : (refPathString r).data = pathChars (segs.map String.data) := by
    unfold refPathString
    rw [h2]
    exact joinDot_brack_data segs h3
  have hstp : stringToPath (refPathString r) = segs :=
    stringToPath_build _ _ h3 hpath h4
  have hwalk := walkGet_specLookup segs doc v h6
  obtain ⟨t, ts, rfl⟩ : ∃ t ts, segs = t :: ts := by
    cases segs with
    | nil => exact absurd rfl h3
    | cons a b => exact ⟨a, b, rfl⟩
  have hsafehead := safeSeg_chars t (h4 t (by simp))
  have hplain : isPlainProp (refPathString r) = false :=
    isPlainProp_path _ t.data (ts.map String.data) (by rw [hpath]; rfl)
  have hdeep : isDeepProp (refPathString r) = true :=
    isDeepProp_path _ t.data (ts.map String.data) (by rw [hpath]; rfl) hsafehead
  have hkey : isKeyStr (refPathString r) doc = false := by
    simp [isKeyStr, hplain, hdeep, h5]
  unfold resolveRef
  rw [jsGet_obj, href, exceptOkBind, truthy_str_of_startsHashSlash r h1]
  show (if (!startsHashSlash r) = true then (pure (some (JSON.obj [])) : Except Unit (Option JSON))
    else pure (lodashGet doc (refPathString r))) = Except.ok (some v)
  rw [h1]
  simp only [Bool.not_true, Bool.false_eq_true, if_false]
  unfold lodashGet castPath
  rw [hkey]
  simp only [Bool.false_eq_true, if_false]
  rw [hstp, hwalk]
  rfl

theorem pointerResolvesSafeKeys_witness :
    resolveRef (some (JSON.obj [("$ref", JSON.str "#/definitions/a.b")]))
      (JSON.obj [("definitions", JSON.obj [("a.b", JSON.num 7)])]) =
      Except.ok (some (JSON.num 7)) :=
  pointerResolvesSafeKeys (JSON.obj [("definitions", JSON.obj [("a.b", JSON.num 7)])])
    [("$ref", JSON.str "#/definitions/a.b")] "#/definitions/a.b" ["definitions", "a.b"]
    (JSON.num 7) rfl rfl rfl (by simp) (by decide) rfl rfl
